import Mathlib

/-!
Shallow embedding of the EILEV data-preparation code
(`video_blip/data/ego4d.py` and `video_blip/data/frame.py`) and proofs about
the claims of its specification.

Python values are modelled as follows: `float`/`Fraction` seconds become `ℚ`,
Python `int` becomes `ℕ` (all indices and counts in this code are
non-negative), Python `set[int]` becomes `Finset ℕ`, a `dict`/`defaultdict`
from labels to sets becomes a total function `String → Finset ℕ` (the
`defaultdict(set)` / `.get(key, set())` convention makes absent keys read as
the empty set), raising an exception becomes returning `none`, and the two
sources of randomness (`random.shuffle` and `random.sample`) become explicit
oracle parameters, quantified over all oracles satisfying the contract of the
corresponding Python function.
-/

namespace EILEV

/-! ## Clip sampler (`NarratedActionClipSampler` in `ego4d.py`) -/

/-- One entry of `annotation["narrated_actions"]` as consumed by
`NarratedActionClipSampler.__call__`: only `narration_timestamp_sec` is
read there. -/
structure SampledAction where
  narration_timestamp_sec : ℚ
deriving DecidableEq

/-- The annotation dict passed to `NarratedActionClipSampler.__call__`:
the `narrated_actions` list and `video_metadata["duration_sec"]`
(flattened to one field, since only `duration_sec` is read). -/
structure VideoAnn where
  narrated_actions : List SampledAction
  duration_sec : ℚ
deriving DecidableEq

/-- `pytorchvideo.data.clip_sampling.ClipInfo`, a named tuple
`(clip_start_sec, clip_end_sec, clip_index, aug_index, is_last_clip)`. -/
structure ClipInfo where
  clip_start_sec : ℚ
  clip_end_sec : ℚ
  clip_index : ℕ
  aug_index : ℕ
  is_last_clip : Bool
deriving DecidableEq

/-- The mutable state of a `NarratedActionClipSampler`:
`self._current_clip_index` (from the `pytorchvideo` `ClipSampler` base
class) and `self.sample_clip_indices`. -/
structure SamplerState where
  current_clip_index : ℕ
  sample_clip_indices : Option (List ℕ)
deriving DecidableEq

/-- The state right after `__init__` (the base class sets
`_current_clip_index = 0`; `sample_clip_indices` starts as `None`), which
is also the state produced by `NarratedActionClipSampler.reset`. -/
def initSamplerState : SamplerState := ⟨0, none⟩

/-- `self._clip_duration`: the constructor calls `super().__init__(8)`. -/
def clip_duration : ℚ := 8

/-- The clip-window computation of `NarratedActionClipSampler.__call__`
(lines 60-74 of `ego4d.py`): `clip_start_sec = max(t - duration/2, 0)`,
`clip_end_sec = clip_start_sec + duration`, and if `clip_end_sec` exceeds
the video duration, `clip_end_sec` is clamped to it and `clip_start_sec`
recomputed as `clip_end_sec - duration`. -/
def compute_window (t D : ℚ) : ℚ × ℚ :=
  let clip_start_sec := max (t - clip_duration / 2) 0
  let clip_end_sec := clip_start_sec + clip_duration
  if clip_end_sec > D then (D - clip_duration, D) else (clip_start_sec, clip_end_sec)

/-- The index list `NarratedActionClipSampler.__call__` works with: the
stored `self.sample_clip_indices` if it is not `None`, otherwise the
freshly built `list(range(len(annotation["narrated_actions"])))`, shuffled
by the oracle `sh` when the `random` flag is set. -/
def effective_indices (rnd : Bool) (sh : List ℕ → List ℕ) (s : SamplerState)
    (n : ℕ) : List ℕ :=
  match s.sample_clip_indices with
  | some l => l
  | none => if rnd then sh (List.range n) else List.range n

/-- `NarratedActionClipSampler.__call__`. Returns the `ClipInfo` together
with the successor state; `none` models an uncaught `IndexError` (cursor
outside the index list, or a stored index outside `narrated_actions`).
The `last_clip_time` and `video_duration` arguments are taken but, as in
the source, never read. -/
def sampler_call (rnd : Bool) (sh : List ℕ → List ℕ) (s : SamplerState)
    (last_clip_time video_duration : ℚ) (ann : VideoAnn) :
    Option (ClipInfo × SamplerState) :=
  let indices := effective_indices rnd sh s ann.narrated_actions.length
  match indices[s.current_clip_index]? with
  | none => none
  | some clip_index =>
    match ann.narrated_actions[clip_index]? with
    | none => none
    | some narrated_action =>
      some
        (⟨(compute_window narrated_action.narration_timestamp_sec ann.duration_sec).1,
          (compute_window narrated_action.narration_timestamp_sec ann.duration_sec).2,
          clip_index, 0, decide (s.current_clip_index + 1 = indices.length)⟩,
         if s.current_clip_index + 1 = indices.length then initSamplerState
         else ⟨s.current_clip_index + 1, some indices⟩)

/-- `n` successive calls of the sampler, threading the state; `none` if any
call raises. The unused `last_clip_time`/`video_duration` arguments are
passed as `0` (the source never reads them, so any values give the same
run). -/
def sampler_run (rnd : Bool) (sh : List ℕ → List ℕ) (ann : VideoAnn) :
    ℕ → SamplerState → Option (List ClipInfo × SamplerState)
  | 0, s => some ([], s)
  | k + 1, s =>
    match sampler_call rnd sh s 0 0 ann with
    | none => none
    | some (info, s') =>
      match sampler_run rnd sh ann k s' with
      | none => none
      | some (infos, s'') => some (info :: infos, s'')

/-- The window always has width exactly `clip_duration`: in the unclamped
branch it is `start + 8 - start`, in the clamped branch `D - (D - 8)`. -/
lemma compute_window_width (t D : ℚ) :
    (compute_window t D).2 - (compute_window t D).1 = clip_duration := by
  unfold compute_window
  dsimp only
  split <;> ring

/-- When the video is shorter than the clip duration, the clamping branch is
always taken and the window is `(D - 8, D)` with a negative start. -/
lemma compute_window_short (t D : ℚ) (hD : D < clip_duration) :
    compute_window t D = (D - clip_duration, D) := by
  unfold compute_window
  dsimp only
  have h0 : (0 : ℚ) ≤ max (t - clip_duration / 2) 0 := le_max_right _ _
  rw [if_pos (by linarith)]

/-- Single-step characterization of `sampler_call`: if the cursor points at
entry `ci` of the effective index list and action `ci` exists, the call
returns the window computed from that action's timestamp, carrying `ci` as
`clip_index`, and resets the state exactly when the cursor reaches the end. -/
lemma sampler_call_step (rnd : Bool) (sh : List ℕ → List ℕ) (s : SamplerState)
    (lct vd : ℚ) (ann : VideoAnn) (ci : ℕ) (act : SampledAction)
    (hc : (effective_indices rnd sh s ann.narrated_actions.length)[s.current_clip_index]? = some ci)
    (ha : ann.narrated_actions[ci]? = some act) :
    sampler_call rnd sh s lct vd ann =
      some
        (⟨(compute_window act.narration_timestamp_sec ann.duration_sec).1,
          (compute_window act.narration_timestamp_sec ann.duration_sec).2,
          ci, 0,
          decide (s.current_clip_index + 1 =
            (effective_indices rnd sh s ann.narrated_actions.length).length)⟩,
         if s.current_clip_index + 1 =
             (effective_indices rnd sh s ann.narrated_actions.length).length then
           initSamplerState
         else ⟨s.current_clip_index + 1,
           some (effective_indices rnd sh s ann.narrated_actions.length)⟩) := by
  unfold sampler_call
  dsimp only
  rw [hc]
  dsimp only
  rw [ha]

/-- C3: For every `ClipInfo` produced by the clip sampler,
`clip_end_sec - clip_start_sec` equals the fixed clip duration (8 seconds),
except possibly when the video's `duration_sec` is shorter than the clip
duration (in fact the width is 8 in that case too, but the claim only
asserts the guarded case). -/
theorem produced_clip_has_fixed_width (rnd : Bool) (sh : List ℕ → List ℕ)
    (s : SamplerState) (lct vd : ℚ) (ann : VideoAnn) (info : ClipInfo)
    (s' : SamplerState)
    (h : sampler_call rnd sh s lct vd ann = some (info, s'))
    (hD : clip_duration ≤ ann.duration_sec) :
    info.clip_end_sec - info.clip_start_sec = clip_duration := by
  rcases h1 : (effective_indices rnd sh s
      ann.narrated_actions.length)[s.current_clip_index]? with _ | ci
  · unfold sampler_call at h
    dsimp only at h
    rw [h1] at h
    simp at h
  · rcases h2 : ann.narrated_actions[ci]? with _ | act
    · unfold sampler_call at h
      dsimp only at h
      rw [h1] at h
      dsimp only at h
      rw [h2] at h
      simp at h
    · rw [sampler_call_step rnd sh s lct vd ann ci act h1 h2] at h
      simp only [Option.some.injEq, Prod.mk.injEq] at h
      obtain ⟨h3, -⟩ := h
      rw [← h3]
      exact compute_window_width _ _

/-- Concrete run used to witness `produced_clip_has_fixed_width`: a video of
20 seconds with one narrated action at second 1 yields the window `(0, 8)`. -/
def annW : VideoAnn := ⟨[⟨1⟩, ⟨9⟩], 20⟩

theorem produced_clip_has_fixed_width_witness :
    ClipInfo.clip_end_sec ⟨0, 8, 0, 0, false⟩ -
      ClipInfo.clip_start_sec ⟨0, 8, 0, 0, false⟩ = clip_duration :=
  produced_clip_has_fixed_width false id initSamplerState 0 0 annW
    ⟨0, 8, 0, 0, false⟩ ⟨1, some [0, 1]⟩
    (by
      unfold sampler_call effective_indices initSamplerState annW
      norm_num [compute_window, clip_duration]
      decide)
    (by norm_num [annW, clip_duration])

/-- Inversion: every `ClipInfo` the sampler returns carries the window
`compute_window t D` for some timestamp `t`, with `D` the annotation's
`duration_sec`. -/
lemma sampler_call_window (rnd : Bool) (sh : List ℕ → List ℕ) (s : SamplerState)
    (lct vd : ℚ) (ann : VideoAnn) (info : ClipInfo) (s' : SamplerState)
    (h : sampler_call rnd sh s lct vd ann = some (info, s')) :
    ∃ t : ℚ,
      info.clip_start_sec = (compute_window t ann.duration_sec).1 ∧
      info.clip_end_sec = (compute_window t ann.duration_sec).2 := by
  rcases h1 : (effective_indices rnd sh s
      ann.narrated_actions.length)[s.current_clip_index]? with _ | ci
  · unfold sampler_call at h
    dsimp only at h
    rw [h1] at h
    simp at h
  · rcases h2 : ann.narrated_actions[ci]? with _ | act
    · unfold sampler_call at h
      dsimp only at h
      rw [h1] at h
      dsimp only at h
      rw [h2] at h
      simp at h
    · rw [sampler_call_step rnd sh s lct vd ann ci act h1 h2] at h
      simp only [Option.some.injEq, Prod.mk.injEq] at h
      obtain ⟨h3, -⟩ := h
      exact ⟨act.narration_timestamp_sec, by rw [← h3], by rw [← h3]⟩

/-- C4 counterexample: a one-action video of duration 4 seconds (shorter than
the clip duration 8). The call does NOT fail with a `ConfigurationError`;
it returns the window `(-4, 4)` — a negative start — and resets normally.
There is no guard of any kind in `NarratedActionClipSampler.__call__`. -/
def cexAnn : VideoAnn := ⟨[⟨2⟩], 4⟩

/-- C4 counterexample: on the 4-second video the call returns the window
`(-4, 4)` instead of failing — no `ConfigurationError` is raised for a
clip start that is still negative after the clamping step. -/
theorem clip_sampler_short_video_returns_window :
    sampler_call false id initSamplerState 0 0 cexAnn =
      some (⟨-4, 4, 0, 0, true⟩, initSamplerState) ∧ (-4 : ℚ) < 0 := by
  constructor
  · unfold sampler_call effective_indices initSamplerState cexAnn
    norm_num [compute_window, clip_duration]
  · norm_num

/-- C4 amended: when the video's `duration_sec` is shorter than the clip
duration, the call does not raise anything; it returns a window whose end is
clamped to `duration_sec` and whose start is `duration_sec - 8`, which is
negative. -/
theorem clip_sampler_short_video_no_guard (rnd : Bool) (sh : List ℕ → List ℕ)
    (s : SamplerState) (lct vd : ℚ) (ann : VideoAnn) (info : ClipInfo)
    (s' : SamplerState)
    (hD : ann.duration_sec < clip_duration)
    (h : sampler_call rnd sh s lct vd ann = some (info, s')) :
    info.clip_start_sec = ann.duration_sec - clip_duration ∧
      info.clip_start_sec < 0 ∧ info.clip_end_sec = ann.duration_sec := by
  obtain ⟨t, h1, h2⟩ := sampler_call_window rnd sh s lct vd ann info s' h
  rw [compute_window_short t ann.duration_sec hD] at h1 h2
  dsimp only at h1 h2
  refine ⟨h1, ?_, h2⟩
  rw [h1]
  linarith

theorem clip_sampler_short_video_no_guard_witness :
    ClipInfo.clip_start_sec ⟨-4, 4, 0, 0, true⟩ =
        VideoAnn.duration_sec cexAnn - clip_duration ∧
      ClipInfo.clip_start_sec ⟨-4, 4, 0, 0, true⟩ < 0 ∧
      ClipInfo.clip_end_sec ⟨-4, 4, 0, 0, true⟩ = VideoAnn.duration_sec cexAnn :=
  clip_sampler_short_video_no_guard false id initSamplerState 0 0 cexAnn
    ⟨-4, 4, 0, 0, true⟩ initSamplerState
    (by norm_num [cexAnn, clip_duration])
    (by
      unfold sampler_call effective_indices initSamplerState cexAnn
      norm_num [compute_window, clip_duration])

/-- C10: the sampler's behaviour does not depend on the `last_clip_time` and
`video_duration` arguments (the source never reads them; the window is
clamped against `annotation["video_metadata"]["duration_sec"]`). -/
theorem sampler_call_ignores_unused_args (rnd : Bool) (sh : List ℕ → List ℕ)
    (s : SamplerState) (lct lct' vd vd' : ℚ) (ann : VideoAnn) :
    sampler_call rnd sh s lct vd ann = sampler_call rnd sh s lct' vd' ann := rfl

/-- The first call for a video (state `⟨c, none⟩`) behaves exactly like a
call whose stored index list is the one it would build, because
`effective_indices` of either state is the same list. -/
lemma sampler_run_fresh (rnd : Bool) (sh : List ℕ → List ℕ) (ann : VideoAnn)
    (k : ℕ) :
    sampler_run rnd sh ann (k + 1) initSamplerState =
      sampler_run rnd sh ann (k + 1)
        ⟨0, some (effective_indices rnd sh initSamplerState
          ann.narrated_actions.length)⟩ := rfl

/-- Running the sampler from cursor `c` with stored index list `p` for the
remaining `k = p.length - c` calls: every call succeeds, the returned
`clip_index` values are exactly `p.drop c` in order, `is_last_clip` is set
precisely on the final call, and the final state is the reset state. -/
lemma sampler_run_mid (rnd : Bool) (sh : List ℕ → List ℕ) (ann : VideoAnn)
    (p : List ℕ) (hval : ∀ x ∈ p, x < ann.narrated_actions.length) :
    ∀ k c, c + k = p.length → 1 ≤ k →
      ∃ infos : List ClipInfo,
        sampler_run rnd sh ann k ⟨c, some p⟩ = some (infos, initSamplerState) ∧
        infos.map ClipInfo.clip_index = p.drop c ∧
        infos.map ClipInfo.is_last_clip =
          (List.range k).map fun i => decide (i + 1 = k) := by
  intro k
  induction k with
  | zero => intro c _ h1; exact absurd h1 (by norm_num)
  | succ m ih =>
    intro c hc _
    have hcp : c < p.length := by omega
    have heff : effective_indices rnd sh ⟨c, some p⟩
        ann.narrated_actions.length = p := rfl
    have hci : p[c]? = some p[c] := List.getElem?_eq_getElem hcp
    have hcval : p[c] < ann.narrated_actions.length := hval _ (List.getElem?_mem hci)
    have hact : ann.narrated_actions[(p[c])]? =
        some ann.narrated_actions[(p[c])] := List.getElem?_eq_getElem hcval
    have hstep := sampler_call_step rnd sh ⟨c, some p⟩ 0 0 ann p[c] _ hci hact
    rw [heff] at hstep
    dsimp only at hstep
    by_cases hlast : c + 1 = p.length
    · have hm : m = 0 := by omega
      subst hm
      rw [if_pos hlast] at hstep
      refine ⟨[⟨(compute_window ann.narrated_actions[(p[c])].narration_timestamp_sec
          ann.duration_sec).1,
        (compute_window ann.narrated_actions[(p[c])].narration_timestamp_sec
          ann.duration_sec).2, p[c], 0, decide (c + 1 = p.length)⟩], ?_, ?_, ?_⟩
      · unfold sampler_run
        rw [hstep]
        rfl
      · rw [List.drop_eq_getElem_cons hcp, List.drop_eq_nil_of_le (by omega)]
        simp
      · have h1 : decide (c + 1 = p.length) = true := by simp [hlast]
        simp only [List.map_cons, List.map_nil, h1]
        decide
    · rw [if_neg hlast] at hstep
      obtain ⟨infos', hrun', hmap', hmask'⟩ := ih (c + 1) (by omega) (by omega)
      refine ⟨⟨(compute_window ann.narrated_actions[(p[c])].narration_timestamp_sec
          ann.duration_sec).1,
        (compute_window ann.narrated_actions[(p[c])].narration_timestamp_sec
          ann.duration_sec).2, p[c], 0, decide (c + 1 = p.length)⟩ :: infos',
        ?_, ?_, ?_⟩
      · unfold sampler_run
        rw [hstep]
        dsimp only
        rw [hrun']
      · rw [List.drop_eq_getElem_cons hcp]
        simp [hmap']
      · have hm1 : 1 ≤ m := by omega
        simp only [List.map_cons, hmask', List.range_succ_eq_map, List.map_map]
        rw [List.cons.injEq]
        constructor
        · rw [decide_eq_false hlast, decide_eq_false (by omega)]
        · apply List.map_congr_left
          intro i _
          simp only [Function.comp_apply, Nat.succ_eq_add_one]
          exact decide_eq_decide.mpr (by omega)

/-- C2: over a video with `n` narrated actions, `n` successive sampler calls
all succeed, the returned `clip_index` values form a permutation of
`{0..n-1}` (each action index exactly once, in natural-order and
random-order mode alike), `is_last_clip` is set exactly on the `n`-th call,
and the state after the pass is the reset state (cursor `0`, index list
cleared), ready for the next video. The shuffle oracle is only assumed to
return a permutation of its input, which is what `random.shuffle` does. -/
theorem clip_sampler_full_pass (rnd : Bool) (sh : List ℕ → List ℕ)
    (ann : VideoAnn) (n : ℕ)
    (hn : ann.narrated_actions.length = n)
    (hperm : (if rnd then sh (List.range n) else List.range n).Perm
      (List.range n)) :
    ∃ infos : List ClipInfo,
      sampler_run rnd sh ann n initSamplerState = some (infos, initSamplerState) ∧
      (infos.map ClipInfo.clip_index).Perm (List.range n) ∧
      infos.map ClipInfo.is_last_clip =
        (List.range n).map fun i => decide (i + 1 = n) := by
  rcases n with _ | m
  · exact ⟨[], rfl, by simp, by simp⟩
  · have heff0 : effective_indices rnd sh initSamplerState
        ann.narrated_actions.length =
        if rnd then sh (List.range (m + 1)) else List.range (m + 1) := by
      rw [hn]
      rfl
    rw [sampler_run_fresh, heff0]
    set p := if rnd then sh (List.range (m + 1)) else List.range (m + 1) with hp
    have hlen : p.length = m + 1 := by
      rw [hperm.length_eq, List.length_range]
    have hval : ∀ x ∈ p, x < ann.narrated_actions.length := by
      intro x hx
      rw [hn]
      exact List.mem_range.mp (hperm.mem_iff.mp hx)
    obtain ⟨infos, hrun, hmap, hmask⟩ :=
      sampler_run_mid rnd sh ann p hval (m + 1) 0 (by omega) (by omega)
    refine ⟨infos, hrun, ?_, hmask⟩
    rw [hmap, List.drop_zero]
    exact hperm

theorem clip_sampler_full_pass_witness :
    ∃ infos : List ClipInfo,
      sampler_run false id annW 2 initSamplerState = some (infos, initSamplerState) ∧
      (infos.map ClipInfo.clip_index).Perm (List.range 2) ∧
      infos.map ClipInfo.is_last_clip =
        (List.range 2).map fun i => decide (i + 1 = 2) :=
  clip_sampler_full_pass false id annW 2 rfl (by simp)

/-- C7: the `clip_index` carried by the returned `ClipInfo` is the entry of
the (possibly shuffled) index list at the cursor — i.e. the sampled action's
original position in `narrated_actions` — never the cursor position itself,
and the window is computed from the timestamp of the action found at that
original position. -/
theorem clip_index_is_original_index (rnd : Bool) (sh : List ℕ → List ℕ)
    (s : SamplerState) (lct vd : ℚ) (ann : VideoAnn) (ci : ℕ)
    (act : SampledAction)
    (hc : (effective_indices rnd sh s
      ann.narrated_actions.length)[s.current_clip_index]? = some ci)
    (ha : ann.narrated_actions[ci]? = some act) :
    ∃ s' : SamplerState,
      sampler_call rnd sh s lct vd ann =
        some
          (⟨(compute_window act.narration_timestamp_sec ann.duration_sec).1,
            (compute_window act.narration_timestamp_sec ann.duration_sec).2,
            ci, 0,
            decide (s.current_clip_index + 1 =
              (effective_indices rnd sh s ann.narrated_actions.length).length)⟩,
           s') :=
  ⟨_, sampler_call_step rnd sh s lct vd ann ci act hc ha⟩

theorem clip_index_is_original_index_witness :
    ∃ s' : SamplerState,
      sampler_call false id ⟨0, some [1, 0]⟩ 0 0 annW =
        some
          (⟨(compute_window (9 : ℚ) 20).1, (compute_window (9 : ℚ) 20).2,
            1, 0, false⟩, s') :=
  clip_index_is_original_index false id ⟨0, some [1, 0]⟩ 0 0 annW 1 ⟨9⟩ rfl rfl

/-! ## Action filter (`filter_action` in `ego4d.py`) -/

/-- A raw annotation record as consulted by `filter_action`. Each field is
`Option`al: `none` models the key being absent from the dict, in which case
Python's `action["key"]` raises `KeyError`. -/
structure RawNarratedAction where
  is_rejected : Option Bool
  is_valid_action : Option Bool
  narration_text : Option String
deriving DecidableEq

/-- Modelled from the spec: `C_REGEX` is imported from
`video_blip/data/utils.py`, which is not among the sources at hand. The
spec describes it as a fixed lexical pattern "requiring the text begins
with the letter C followed by a space". -/
def C_REGEX_matches (text : String) : Bool := text.startsWith ("C ")

/-- `filter_action`:
`not action["is_rejected"] and action["is_valid_action"] and
C_REGEX.match(action["narration_text"]) is not None`,
with Python's short-circuit evaluation (a later key is only read when the
earlier conjuncts did not already decide the result) and `none` modelling
the `KeyError` raised by a missing key that is actually read. -/
def filter_action (action : RawNarratedAction) : Option Bool :=
  match action.is_rejected with
  | none => none
  | some rej =>
    if rej then some false
    else
      match action.is_valid_action with
      | none => none
      | some valid =>
        if valid then
          match action.narration_text with
          | none => none
          | some text => some (C_REGEX_matches text)
        else some false

/-- C5 counterexample: a record missing `is_rejected` (the other fields
present and unobjectionable) makes `filter_action` raise `KeyError` instead
of returning a boolean — the lookups are plain subscripts, not safe
lookups. -/
def cex_missing_field : RawNarratedAction := ⟨none, some true, some ("C opens a door")⟩

/-- C5 counterexample: on a record missing `is_rejected`, `filter_action`
raises `KeyError` (modelled `none`) — it does not return a boolean. -/
theorem filter_action_missing_field_raises :
    filter_action cex_missing_field = none := rfl

/-- C5 amended: `filter_action` deterministically returns a boolean for
every record that carries all three consulted fields; records missing a
consulted field raise `KeyError` (modelled as `none`) rather than being
treated as filter-false. -/
theorem filter_action_total_on_complete_records (rej valid : Bool)
    (text : String) :
    filter_action ⟨some rej, some valid, some text⟩ =
      some (!rej && (valid && C_REGEX_matches text)) := by
  cases rej <;> cases valid <;> rfl

/-! ## Noun resolution (`get_structured_noun` in `ego4d.py`) -/

/-- A bounding-box annotation: only `object_type` and `structured_noun`
are read. `structured_noun : Option String` models the JSON value being
possibly `null` (the source checks `is not None`). -/
structure Box where
  object_type : String
  structured_noun : Option String
deriving DecidableEq

/-- A frame annotation: `frame_type` and its list of boxes. -/
structure FrameAnn where
  frame_type : String
  boxes : List Box
deriving DecidableEq

/-- The inner loop of `get_structured_noun`: first box whose `object_type`
is `object_of_change` and whose `structured_noun` is not null. -/
def scan_boxes : List Box → Option String
  | [] => none
  | box :: rest =>
    if box.object_type = "object_of_change" ∧ box.structured_noun.isSome then
      box.structured_noun
    else scan_boxes rest

/-- The outer loop of `get_structured_noun`: frames whose `frame_type` is
not `pnr_frame` are skipped (`continue`); a `pnr_frame` whose boxes contain
no match falls through to the next frame. -/
def scan_frames : List FrameAnn → Option String
  | [] => none
  | frame :: rest =>
    if frame.frame_type ≠ "pnr_frame" then scan_frames rest
    else
      match scan_boxes frame.boxes with
      | some noun => some noun
      | none => scan_frames rest

/-- `get_structured_noun(action)`: `None` when `action["frames"]` is null,
otherwise the two nested loops above. -/
def get_structured_noun (frames : Option (List FrameAnn)) : Option String :=
  match frames with
  | none => none
  | some fs => scan_frames fs

/-- The noun-resolution rule exactly as the claim words it: scan the
action's frame/box annotations — all frames, in order — and return the
structured noun of the first box whose object type is `object_of_change`
and whose structured noun is present; `none` when there are no frames. -/
def first_object_of_change_noun (frames : Option (List FrameAnn)) :
    Option String :=
  match frames with
  | none => none
  | some fs => scan_boxes (fs.flatMap FrameAnn.boxes)

/-- C8 counterexample: an action whose only frame is a `contact_frame`
containing a qualifying `object_of_change` box. The claim's scan returns
that box's noun, but `get_structured_noun` skips the frame (it only scans
`pnr_frame` frames) and produces no noun label. -/
def cex_frames : Option (List FrameAnn) :=
  some [⟨"contact_frame", [⟨"object_of_change", some ("apple")⟩]⟩]

/-- C8 counterexample: the qualifying box sits in a `contact_frame`, so the
claimed all-frames scan yields `"apple"` while `get_structured_noun`
returns `none`. -/
theorem get_structured_noun_skips_contact_frames :
    get_structured_noun cex_frames = none ∧
      first_object_of_change_noun cex_frames = some ("apple") := ⟨rfl, rfl⟩

/-- Splitting the box scan over an appended list. -/
lemma scan_boxes_append (l₁ l₂ : List Box) :
    scan_boxes (l₁ ++ l₂) =
      match scan_boxes l₁ with
      | some noun => some noun
      | none => scan_boxes l₂ := by
  induction l₁ with
  | nil => rfl
  | cons box rest ih =>
    by_cases h : box.object_type = "object_of_change" ∧ box.structured_noun.isSome
    · rcases Option.isSome_iff_exists.mp h.2 with ⟨n, hn⟩
      simp only [List.cons_append, scan_boxes]
      rw [if_pos h, if_pos h, hn]
    · simp only [List.cons_append, scan_boxes, if_neg h, List.append_eq, ih]

/-- C8 amended: `get_structured_noun` equals the claim's first-match box
scan restricted to the frames whose `frame_type` is `pnr_frame` (in frame
order, then box order within a frame); absence of such a box — or a null
frame list — yields no noun label. -/
theorem get_structured_noun_eq_pnr_scan (frames : Option (List FrameAnn)) :
    get_structured_noun frames =
      first_object_of_change_noun
        (frames.map fun fs => fs.filter fun f => f.frame_type == "pnr_frame") := by
  rcases frames with _ | fs
  · rfl
  · show scan_frames fs = scan_boxes ((fs.filter fun f =>
      f.frame_type == "pnr_frame").flatMap FrameAnn.boxes)
    induction fs with
    | nil => rfl
    | cons f rest ih =>
      by_cases h : f.frame_type = "pnr_frame"
      · rw [scan_frames, if_neg (by simp [h])]
        rw [List.filter_cons_of_pos (by simp [h]), List.flatMap_cons,
          scan_boxes_append, ih]
      · rw [scan_frames, if_pos h, ih, List.filter_cons_of_neg (by simp [h])]

/-! ## Category buckets
(`FrameInterleavedDataset.__init__` in `frame.py`, identically
`Ego4dFHOMainFrameInterleavedDataset.__init__` in `ego4d.py`) -/

/-- One row of `narrated_actions.csv` as read by the bucket loop: only the
`structured_verb` and `structured_noun` columns are consulted (CSV fields
are plain strings; an absent noun is the empty string). -/
structure FrameDatapoint where
  structured_verb : String
  structured_noun : String
deriving DecidableEq

/-- `buckets[key].add(i)` on a `defaultdict(set)`, modelled as a total map
with default `∅`. -/
def bucket_add (m : String → Finset ℕ) (key : String) (i : ℕ) :
    String → Finset ℕ :=
  fun l => if l = key then insert i (m key) else m l

/-- The `for i, datapoint in enumerate(self._in_context_dataset.data)` loop
of the constructor, carrying the running index and the two accumulated
bucket maps: a datapoint's index is added to the verb bucket of its
`structured_verb` unless that label is `""` or `"[other]"`, and to the noun
bucket of its `structured_noun` unless that label is `""`. -/
def build_buckets_from :
    ℕ → List FrameDatapoint → (String → Finset ℕ) → (String → Finset ℕ) →
      (String → Finset ℕ) × (String → Finset ℕ)
  | _, [], vb, nb => (vb, nb)
  | i, dp :: rest, vb, nb =>
    build_buckets_from (i + 1) rest
      (if dp.structured_verb = "" ∨ dp.structured_verb = "[other]" then vb
       else bucket_add vb dp.structured_verb i)
      (if dp.structured_noun = "" then nb
       else bucket_add nb dp.structured_noun i)

/-- `self.structured_verb_buckets` and `self.structured_noun_buckets` right
after construction. -/
def build_buckets (data : List FrameDatapoint) :
    (String → Finset ℕ) × (String → Finset ℕ) :=
  build_buckets_from 0 data (fun _ => ∅) (fun _ => ∅)

/-- Splitting an existential over the entries of a cons cell. -/
lemma exists_getElem?_cons (dp : FrameDatapoint) (rest : List FrameDatapoint)
    (P : ℕ → FrameDatapoint → Prop) :
    (∃ j dpx, (dp :: rest)[j]? = some dpx ∧ P j dpx) ↔
      P 0 dp ∨ ∃ j dpx, rest[j]? = some dpx ∧ P (j + 1) dpx := by
  constructor
  · rintro ⟨j, dpx, hj, hP⟩
    cases j with
    | zero =>
      left
      simp only [List.getElem?_cons_zero, Option.some.injEq] at hj
      exact hj ▸ hP
    | succ j =>
      right
      exact ⟨j, dpx, by simpa using hj, hP⟩
  · rintro (hP | ⟨j, dpx, hj, hP⟩)
    · exact ⟨0, dp, by simp, hP⟩
    · exact ⟨j + 1, dpx, by simpa using hj, hP⟩

/-- Full characterization of membership in the bucket maps built by the
constructor loop, generalized over the running index and accumulators. -/
lemma mem_build_buckets_from (data : List FrameDatapoint) :
    ∀ (start : ℕ) (vb nb : String → Finset ℕ) (L : String) (i : ℕ),
      (i ∈ (build_buckets_from start data vb nb).1 L ↔
        i ∈ vb L ∨ ∃ j dpx, data[j]? = some dpx ∧ i = start + j ∧
          dpx.structured_verb = L ∧ ¬(L = "" ∨ L = "[other]")) ∧
      (i ∈ (build_buckets_from start data vb nb).2 L ↔
        i ∈ nb L ∨ ∃ j dpx, data[j]? = some dpx ∧ i = start + j ∧
          dpx.structured_noun = L ∧ ¬L = "") := by
  induction data with
  | nil =>
    intro start vb nb L i
    constructor <;> simp [build_buckets_from]
  | cons dp rest ih =>
    intro start vb nb L i
    rw [build_buckets_from]
    obtain ⟨ihv, ihn⟩ := ih (start + 1)
      (if dp.structured_verb = "" ∨ dp.structured_verb = "[other]" then vb
       else bucket_add vb dp.structured_verb start)
      (if dp.structured_noun = "" then nb
       else bucket_add nb dp.structured_noun start) L i
    constructor
    · rw [ihv, exists_getElem?_cons]
      have hshift : ∀ j, i = start + 1 + j ↔ i = start + (j + 1) := by omega
      constructor
      · rintro (hmem | ⟨j, dpx, hj, hi, hvl, hg⟩)
        · split at hmem
          · exact Or.inl hmem
          · rename_i hcond
            rcases (by
              by_cases hL : L = dp.structured_verb
              · rw [bucket_add, if_pos hL, Finset.mem_insert, ← hL] at hmem
                rcases hmem with h | h
                · exact Or.inr ⟨h, hL⟩
                · exact Or.inl (hL ▸ h)
              · rw [bucket_add, if_neg hL] at hmem
                exact Or.inl hmem :
                i ∈ vb L ∨ (i = start ∧ L = dp.structured_verb)) with h | ⟨hi, hL⟩
            · exact Or.inl h
            · exact Or.inr (Or.inl ⟨by omega, hL.symm, by rw [hL]; exact hcond⟩)
        · exact Or.inr (Or.inr ⟨j, dpx, hj, (hshift j).mp hi, hvl, hg⟩)
      · rintro (hmem | ⟨hi, hvl, hg⟩ | ⟨j, dpx, hj, hi, hvl, hg⟩)
        · left
          split
          · exact hmem
          · rw [bucket_add]
            split
            · rename_i hL
              exact Finset.mem_insert_of_mem (hL ▸ hmem)
            · exact hmem
        · left
          rw [if_neg (by rw [hvl]; exact hg), bucket_add, if_pos hvl.symm,
            Finset.mem_insert]
          exact Or.inl (by omega)
        · exact Or.inr ⟨j, dpx, hj, (hshift j).mpr hi, hvl, hg⟩
    · rw [ihn, exists_getElem?_cons]
      have hshift : ∀ j, i = start + 1 + j ↔ i = start + (j + 1) := by omega
      constructor
      · rintro (hmem | ⟨j, dpx, hj, hi, hnl, hg⟩)
        · split at hmem
          · exact Or.inl hmem
          · rename_i hcond
            rcases (by
              by_cases hL : L = dp.structured_noun
              · rw [bucket_add, if_pos hL, Finset.mem_insert, ← hL] at hmem
                rcases hmem with h | h
                · exact Or.inr ⟨h, hL⟩
                · exact Or.inl (hL ▸ h)
              · rw [bucket_add, if_neg hL] at hmem
                exact Or.inl hmem :
                i ∈ nb L ∨ (i = start ∧ L = dp.structured_noun)) with h | ⟨hi, hL⟩
            · exact Or.inl h
            · exact Or.inr (Or.inl ⟨by omega, hL.symm, by rw [hL]; exact hcond⟩)
        · exact Or.inr (Or.inr ⟨j, dpx, hj, (hshift j).mp hi, hnl, hg⟩)
      · rintro (hmem | ⟨hi, hnl, hg⟩ | ⟨j, dpx, hj, hi, hnl, hg⟩)
        · left
          split
          · exact hmem
          · rw [bucket_add]
            split
            · rename_i hL
              exact Finset.mem_insert_of_mem (hL ▸ hmem)
            · exact hmem
        · left
          rw [if_neg (by rw [hnl]; exact hg), bucket_add, if_pos hnl.symm,
            Finset.mem_insert]
          exact Or.inl (by omega)
        · exact Or.inr ⟨j, dpx, hj, (hshift j).mpr hi, hnl, hg⟩

/-- C6: membership in the constructed bucket maps. Position `i` is in
`structured_verb_buckets[L]` iff example `i`'s `structured_verb` equals
`L`, `L` is non-empty and `L` is not the sentinel `"[other]"`; and `i` is
in `structured_noun_buckets[L]` iff example `i`'s `structured_noun` equals
`L` and `L` is non-empty. -/
theorem bucket_membership (data : List FrameDatapoint) (L : String) (i : ℕ) :
    (i ∈ (build_buckets data).1 L ↔
      ∃ dp : FrameDatapoint, data[i]? = some dp ∧ dp.structured_verb = L ∧
        L ≠ "" ∧ L ≠ "[other]") ∧
    (i ∈ (build_buckets data).2 L ↔
      ∃ dp : FrameDatapoint, data[i]? = some dp ∧ dp.structured_noun = L ∧
        L ≠ "") := by
  obtain ⟨hv, hn⟩ := mem_build_buckets_from data 0 (fun _ => ∅) (fun _ => ∅) L i
  unfold build_buckets
  constructor
  · rw [hv]
    simp only [Finset.not_mem_empty, false_or, zero_add]
    constructor
    · rintro ⟨j, dpx, hj, rfl, hvl, hg⟩
      exact ⟨dpx, hj, hvl, fun h => hg (Or.inl h), fun h => hg (Or.inr h)⟩
    · rintro ⟨dpx, hj, hvl, h1, h2⟩
      exact ⟨i, dpx, hj, rfl, hvl, by tauto⟩
  · rw [hn]
    simp only [Finset.not_mem_empty, false_or, zero_add]
    constructor
    · rintro ⟨j, dpx, hj, rfl, hnl, hg⟩
      exact ⟨dpx, hj, hnl, hg⟩
    · rintro ⟨dpx, hj, hnl, hg⟩
      exact ⟨i, dpx, hj, rfl, hnl, hg⟩

/-! ## In-context example selection
(`FrameInterleavedDataset.__getitem__` in `frame.py`, identically
`Ego4dFHOMainFrameInterleavedDataset.__getitem__` in `ego4d.py`) -/

/-- Contract of `random.sample(population, k)` for `k ≤ len(population)`:
it returns `k` distinct elements of the population. The selection code is
verified for every oracle satisfying this contract. -/
def SampleOracle (pick : Finset ℕ → ℕ → Finset ℕ) : Prop :=
  ∀ s k, k ≤ s.card → pick s k ⊆ s ∧ (pick s k).card = k

/-- The local helper `_sample(bucket, k)`: draw `k` distinct elements when
the bucket holds at least `k` (otherwise take the whole bucket), remove the
drawn elements from the bucket (`bucket -= samples`), and return the pair
(drawn samples, remaining bucket). -/
def sample_from_bucket (pick : Finset ℕ → ℕ → Finset ℕ) (bucket : Finset ℕ)
    (k : ℕ) : Finset ℕ × Finset ℕ :=
  let samples := if bucket.card ≥ k then pick bucket k else bucket
  (samples, bucket \ samples)

/-- The per-iteration split of the remaining need between verb and noun
draws: `int(num_additional * verb_noun_ratio)` verb examples when both
buckets are non-empty (Python `int()` truncation of the non-negative
product is its floor), and the full remainder assigned to the other bucket
when one of them is empty. -/
def loop_nums (K : ℕ) (ratio : ℚ) (examples verb_bucket noun_bucket : Finset ℕ) :
    ℕ × ℕ :=
  if verb_bucket ≠ ∅ ∧ noun_bucket ≠ ∅ then
    (⌊((K - examples.card : ℕ) : ℚ) * ratio⌋.toNat,
      (K - examples.card) - ⌊((K - examples.card : ℕ) : ℚ) * ratio⌋.toNat)
  else if verb_bucket = ∅ then (0, K - examples.card)
  else (K - examples.card, 0)

/-- The `while num_additional > 0 and (len(verb_bucket) > 0 or
len(noun_bucket) > 0)` loop of `__getitem__`, with an explicit fuel
argument: each genuine iteration removes at least one element from the two
bucket copies (`selection_loop_exits`), so fuel equal to the total size of
the two buckets makes the fuel-exhausted base case unreachable. State is
`(examples, verb_bucket, noun_bucket)`; each iteration draws
`loop_nums .1` examples from the verb bucket and `loop_nums .2` from the
noun bucket and accumulates them into `examples`. -/
def selection_loop (pick : Finset ℕ → ℕ → Finset ℕ) (K : ℕ) (ratio : ℚ) :
    ℕ → Finset ℕ → Finset ℕ → Finset ℕ → Finset ℕ × Finset ℕ × Finset ℕ
  | 0, examples, verb_bucket, noun_bucket => (examples, verb_bucket, noun_bucket)
  | fuel + 1, examples, verb_bucket, noun_bucket =>
    if K - examples.card = 0 ∨ (verb_bucket = ∅ ∧ noun_bucket = ∅) then
      (examples, verb_bucket, noun_bucket)
    else
      selection_loop pick K ratio fuel
        (examples ∪
          (sample_from_bucket pick verb_bucket
            (loop_nums K ratio examples verb_bucket noun_bucket).1).1 ∪
          (sample_from_bucket pick noun_bucket
            (loop_nums K ratio examples verb_bucket noun_bucket).2).1)
        (sample_from_bucket pick verb_bucket
          (loop_nums K ratio examples verb_bucket noun_bucket).1).2
        (sample_from_bucket pick noun_bucket
          (loop_nums K ratio examples verb_bucket noun_bucket).2).2

/-- The index-selection logic of `__getitem__`: build the per-call verb and
noun bucket copies for the target's labels (excluding the target's own
index when the in-context pool is the main pool), run the draw loop, and if
examples are still missing, draw the remainder from the rest of the
in-context dataset (again excluding the target when the pools coincide, and
excluding already-drawn indices). Returns the final set of in-context
example indices. -/
def select_in_context (pick : Finset ℕ → ℕ → Finset ℕ)
    (verb_buckets noun_buckets : String → Finset ℕ) (dp : FrameDatapoint)
    (same_pool : Bool) (index pool_size K : ℕ) (ratio : ℚ) : Finset ℕ :=
  let verb_bucket := (verb_buckets dp.structured_verb).filter
    fun i => ¬(same_pool = true ∧ i = index)
  let noun_bucket := (noun_buckets dp.structured_noun).filter
    fun i => ¬(same_pool = true ∧ i = index)
  let r := selection_loop pick K ratio (verb_bucket.card + noun_bucket.card)
    ∅ verb_bucket noun_bucket
  if 0 < K - r.1.card then
    let rest := (Finset.range pool_size).filter
      fun i => ¬((same_pool = true ∧ i = index) ∨ i ∈ r.1)
    r.1 ∪ (sample_from_bucket pick rest (K - r.1.card)).1
  else r.1

lemma sample_from_bucket_fst_subset (pick : Finset ℕ → ℕ → Finset ℕ)
    (hp : SampleOracle pick) (b : Finset ℕ) (k : ℕ) :
    (sample_from_bucket pick b k).1 ⊆ b := by
  unfold sample_from_bucket
  dsimp only
  split
  · rename_i h
    exact (hp b k h).1
  · exact Finset.Subset.refl b

lemma sample_from_bucket_fst_card_le (pick : Finset ℕ → ℕ → Finset ℕ)
    (hp : SampleOracle pick) (b : Finset ℕ) (k : ℕ) :
    (sample_from_bucket pick b k).1.card ≤ k := by
  unfold sample_from_bucket
  dsimp only
  split
  · rename_i h
    rw [(hp b k h).2]
  · rename_i h
    omega

lemma sample_from_bucket_snd (pick : Finset ℕ → ℕ → Finset ℕ) (b : Finset ℕ)
    (k : ℕ) :
    (sample_from_bucket pick b k).2 = b \ (sample_from_bucket pick b k).1 := rfl

lemma sample_from_bucket_fst_nonempty (pick : Finset ℕ → ℕ → Finset ℕ)
    (hp : SampleOracle pick) (b : Finset ℕ) (k : ℕ) (hb : b ≠ ∅)
    (hk : 1 ≤ k) : (sample_from_bucket pick b k).1 ≠ ∅ := by
  unfold sample_from_bucket
  dsimp only
  split
  · rename_i h
    have hc := (hp b k h).2
    intro hcon
    rw [hcon, Finset.card_empty] at hc
    omega
  · exact hb

lemma loop_nums_sum (K : ℕ) (ratio : ℚ) (hr0 : 0 ≤ ratio) (hr1 : ratio ≤ 1)
    (examples verb_bucket noun_bucket : Finset ℕ) :
    (loop_nums K ratio examples verb_bucket noun_bucket).1 +
      (loop_nums K ratio examples verb_bucket noun_bucket).2 =
      K - examples.card := by
  unfold loop_nums
  split
  · dsimp only
    have h2 : ((K - examples.card : ℕ) : ℚ) * ratio ≤ ((K - examples.card : ℕ) : ℚ) :=
      mul_le_of_le_one_right (by positivity) hr1
    have h4 := Int.floor_le_floor h2
    rw [Int.floor_natCast] at h4
    omega
  · split <;> dsimp only <;> omega

/-- Loop invariant: the accumulated example set never exceeds `K` elements
and only ever contains elements of the initial state. -/
lemma selection_loop_bound (pick : Finset ℕ → ℕ → Finset ℕ)
    (hp : SampleOracle pick) (K : ℕ) (ratio : ℚ) (hr0 : 0 ≤ ratio)
    (hr1 : ratio ≤ 1) :
    ∀ (fuel : ℕ) (ex vb nb : Finset ℕ), ex.card ≤ K →
      (selection_loop pick K ratio fuel ex vb nb).1.card ≤ K ∧
      (selection_loop pick K ratio fuel ex vb nb).1 ⊆ ex ∪ vb ∪ nb := by
  intro fuel
  induction fuel with
  | zero =>
    intro ex vb nb hex
    rw [selection_loop]
    exact ⟨hex, Finset.subset_union_left.trans Finset.subset_union_left⟩
  | succ f ih =>
    intro ex vb nb hex
    rw [selection_loop]
    split
    · exact ⟨hex, Finset.subset_union_left.trans Finset.subset_union_left⟩
    · rename_i hcond
      push_neg at hcond
      have hsum := loop_nums_sum K ratio hr0 hr1 ex vb nb
      have hsv := sample_from_bucket_fst_subset pick hp vb
        (loop_nums K ratio ex vb nb).1
      have hsn := sample_from_bucket_fst_subset pick hp nb
        (loop_nums K ratio ex vb nb).2
      have hsvc := sample_from_bucket_fst_card_le pick hp vb
        (loop_nums K ratio ex vb nb).1
      have hsnc := sample_from_bucket_fst_card_le pick hp nb
        (loop_nums K ratio ex vb nb).2
      have hexc : (ex ∪
          (sample_from_bucket pick vb (loop_nums K ratio ex vb nb).1).1 ∪
          (sample_from_bucket pick nb (loop_nums K ratio ex vb nb).2).1).card ≤ K := by
        have h1 := Finset.card_union_le
          (ex ∪ (sample_from_bucket pick vb (loop_nums K ratio ex vb nb).1).1)
          ((sample_from_bucket pick nb (loop_nums K ratio ex vb nb).2).1)
        have h2 := Finset.card_union_le ex
          ((sample_from_bucket pick vb (loop_nums K ratio ex vb nb).1).1)
        omega
      obtain ⟨ihc, ihs⟩ := ih _ _ _ hexc
      refine ⟨ihc, ihs.trans ?_⟩
      have hv2 : (sample_from_bucket pick vb (loop_nums K ratio ex vb nb).1).2 ⊆ vb := by
        rw [sample_from_bucket_snd]
        exact Finset.sdiff_subset
      have hn2 : (sample_from_bucket pick nb (loop_nums K ratio ex vb nb).2).2 ⊆ nb := by
        rw [sample_from_bucket_snd]
        exact Finset.sdiff_subset
      intro x hx
      simp only [Finset.mem_union] at hx ⊢
      rcases hx with (((h | h) | h) | h) | h
      · exact Or.inl (Or.inl h)
      · exact Or.inl (Or.inr (hsv h))
      · exact Or.inr (hsn h)
      · exact Or.inl (Or.inr (hv2 h))
      · exact Or.inr (hn2 h)

/-- Fuel adequacy: with fuel at least the total size of the two bucket
copies, the loop genuinely terminates — at the returned state either the
need is met or both buckets are exhausted, exactly the negation of the
`while` condition. (Each iteration draws at least one element from a
non-empty bucket and removes it from that bucket.) -/
lemma selection_loop_exits (pick : Finset ℕ → ℕ → Finset ℕ)
    (hp : SampleOracle pick) (K : ℕ) (ratio : ℚ) (hr0 : 0 ≤ ratio)
    (hr1 : ratio ≤ 1) :
    ∀ (fuel : ℕ) (ex vb nb : Finset ℕ), vb.card + nb.card ≤ fuel →
      K - (selection_loop pick K ratio fuel ex vb nb).1.card = 0 ∨
        ((selection_loop pick K ratio fuel ex vb nb).2.1 = ∅ ∧
          (selection_loop pick K ratio fuel ex vb nb).2.2 = ∅) := by
  intro fuel
  induction fuel with
  | zero =>
    intro ex vb nb hf
    rw [selection_loop]
    right
    dsimp only
    exact ⟨Finset.card_eq_zero.mp (by omega), Finset.card_eq_zero.mp (by omega)⟩
  | succ f ih =>
    intro ex vb nb hf
    rw [selection_loop]
    split
    · rename_i h
      rcases h with h | h
      · exact Or.inl h
      · exact Or.inr h
    · rename_i hcond
      push_neg at hcond
      obtain ⟨hneed, hvbnb⟩ := hcond
      rcases hn : loop_nums K ratio ex vb nb with ⟨nv, nn⟩
      have hsum := loop_nums_sum K ratio hr0 hr1 ex vb nb
      rw [hn] at hsum
      dsimp only at hsum
      have hkey : (1 ≤ nv ∧ vb ≠ ∅) ∨ (1 ≤ nn ∧ nb ≠ ∅) := by
        by_cases hvb : vb = ∅
        · right
          have hval : loop_nums K ratio ex vb nb = (0, K - ex.card) := by
            unfold loop_nums
            rw [if_neg (by tauto), if_pos hvb]
          rw [hval] at hn
          injection hn with h1 h2
          exact ⟨by omega, hvbnb hvb⟩
        · by_cases hnbe : nb = ∅
          · left
            have hval : loop_nums K ratio ex vb nb = (K - ex.card, 0) := by
              unfold loop_nums
              rw [if_neg (by tauto), if_neg hvb]
            rw [hval] at hn
            injection hn with h1 h2
            exact ⟨by omega, hvb⟩
          · rcases Nat.lt_or_ge nv 1 with h1 | h1
            · exact Or.inr ⟨by omega, hnbe⟩
            · exact Or.inl ⟨h1, hvb⟩
      dsimp only
      apply ih
      have hsv := sample_from_bucket_fst_subset pick hp vb nv
      have hsn := sample_from_bucket_fst_subset pick hp nb nn
      have hcv : (sample_from_bucket pick vb nv).2.card =
          vb.card - (sample_from_bucket pick vb nv).1.card := by
        rw [sample_from_bucket_snd]
        exact Finset.card_sdiff hsv
      have hcn : (sample_from_bucket pick nb nn).2.card =
          nb.card - (sample_from_bucket pick nb nn).1.card := by
        rw [sample_from_bucket_snd]
        exact Finset.card_sdiff hsn
      have hlev := Finset.card_le_card hsv
      have hlen := Finset.card_le_card hsn
      have hdec : 1 ≤ (sample_from_bucket pick vb nv).1.card ∨
          1 ≤ (sample_from_bucket pick nb nn).1.card := by
        rcases hkey with ⟨h1, h2⟩ | ⟨h1, h2⟩
        · left
          have h3 := sample_from_bucket_fst_nonempty pick hp vb nv h2 h1
          have h4 := Finset.card_pos.mpr (Finset.nonempty_iff_ne_empty.mpr h3)
          omega
        · right
          have h3 := sample_from_bucket_fst_nonempty pick hp nb nn h2 h1
          have h4 := Finset.card_pos.mpr (Finset.nonempty_iff_ne_empty.mpr h3)
          omega
      omega

/-- Core correctness of the selection: when the in-context pool is the main
pool, the result avoids the target index and has exactly
`min K (pool_size - 1)` elements, provided the canonical buckets only hold
indices of the pool. -/
lemma select_in_context_spec (pick : Finset ℕ → ℕ → Finset ℕ)
    (hp : SampleOracle pick) (verb_buckets noun_buckets : String → Finset ℕ)
    (dp : FrameDatapoint) (index pool_size K : ℕ) (ratio : ℚ)
    (hr0 : 0 ≤ ratio) (hr1 : ratio ≤ 1) (hi : index < pool_size)
    (hvb : ∀ L, verb_buckets L ⊆ Finset.range pool_size)
    (hnb : ∀ L, noun_buckets L ⊆ Finset.range pool_size) :
    index ∉ select_in_context pick verb_buckets noun_buckets dp true index
        pool_size K ratio ∧
      (select_in_context pick verb_buckets noun_buckets dp true index
        pool_size K ratio).card = min K (pool_size - 1) := by
  unfold select_in_context
  dsimp only
  set G : Finset ℕ := (Finset.range pool_size).erase index with hG
  have hGcard : G.card = pool_size - 1 := by
    rw [hG, Finset.card_erase_of_mem (Finset.mem_range.mpr hi),
      Finset.card_range]
  have hsubG : ∀ (m : String → Finset ℕ), (∀ L, m L ⊆ Finset.range pool_size) →
      ∀ L, (m L).filter (fun i => ¬(true = true ∧ i = index)) ⊆ G := by
    intro m hm L x hx
    rw [Finset.mem_filter] at hx
    rw [hG, Finset.mem_erase]
    exact ⟨fun h => hx.2 ⟨rfl, h⟩, hm L hx.1⟩
  set vb0 := (verb_buckets dp.structured_verb).filter
    (fun i => ¬(true = true ∧ i = index)) with hvb0
  set nb0 := (noun_buckets dp.structured_noun).filter
    (fun i => ¬(true = true ∧ i = index)) with hnb0
  have hvb0G : vb0 ⊆ G := hsubG _ hvb _
  have hnb0G : nb0 ⊆ G := hsubG _ hnb _
  obtain ⟨hloopc, hloops⟩ := selection_loop_bound pick hp K ratio hr0 hr1
    (vb0.card + nb0.card) ∅ vb0 nb0 (by simp)
  set ex := (selection_loop pick K ratio (vb0.card + nb0.card) ∅ vb0 nb0).1
    with hex
  have hexG : ex ⊆ G := by
    refine hloops.trans ?_
    intro x hx
    simp only [Finset.mem_union, Finset.not_mem_empty, false_or] at hx
    rcases hx with h | h
    · exact hvb0G h
    · exact hnb0G h
  have hexcard : ex.card ≤ pool_size - 1 := hGcard ▸ Finset.card_le_card hexG
  split
  · rename_i hneed
    set rest := (Finset.range pool_size).filter
      (fun i => ¬((true = true ∧ i = index) ∨ i ∈ ex)) with hrest
    have hrest_eq : rest = G \ ex := by
      rw [hrest, hG]
      ext x
      simp only [Finset.mem_filter, Finset.mem_range, Finset.mem_sdiff,
        Finset.mem_erase, true_and]
      constructor
      · rintro ⟨h1, h2⟩
        push_neg at h2
        exact ⟨⟨h2.1, h1⟩, h2.2⟩
      · rintro ⟨⟨h1, h2⟩, h3⟩
        exact ⟨h2, by push_neg; exact ⟨h1, h3⟩⟩
    have hrestcard : rest.card = (pool_size - 1) - ex.card := by
      rw [hrest_eq, Finset.card_sdiff hexG, hGcard]
    have hrestG : rest ⊆ G := by
      rw [hrest_eq]
      exact Finset.sdiff_subset
    have hsub := sample_from_bucket_fst_subset pick hp rest (K - ex.card)
    have hdisj : Disjoint ex (sample_from_bucket pick rest (K - ex.card)).1 := by
      apply Finset.disjoint_left.mpr
      intro x hx1 hx2
      have := hsub hx2
      rw [hrest_eq, Finset.mem_sdiff] at this
      exact this.2 hx1
    have hcard_union :
        (ex ∪ (sample_from_bucket pick rest (K - ex.card)).1).card =
          ex.card + (sample_from_bucket pick rest (K - ex.card)).1.card :=
      Finset.card_union_of_disjoint hdisj
    constructor
    · intro hcon
      rcases Finset.mem_union.mp hcon with h | h
      · exact Finset.not_mem_erase index _ (hexG h)
      · exact Finset.not_mem_erase index _ (hrestG (hsub h))
    · rw [hcard_union]
      by_cases hcase : K - ex.card ≤ rest.card
      · have hpickcard : (sample_from_bucket pick rest (K - ex.card)).1.card =
            K - ex.card := by
          unfold sample_from_bucket
          dsimp only
          rw [if_pos hcase]
          exact (hp rest (K - ex.card) hcase).2
        rw [hpickcard]
        omega
      · have hpickall : (sample_from_bucket pick rest (K - ex.card)).1 = rest := by
          unfold sample_from_bucket
          dsimp only
          rw [if_neg hcase]
        rw [hpickall]
        omega
  · rename_i hneed
    constructor
    · intro hcon
      exact Finset.not_mem_erase index _ (hexG hcon)
    · omega

/-- The state of a `FrameInterleavedDataset` right after `__init__`: the
configuration, the main data rows, the in-context data rows (the main rows
themselves when no separate in-context directory is given), and the two
canonical bucket maps built from the in-context rows. -/
structure InterleavedDataset where
  num_in_context_examples_per_sample : ℕ
  verb_noun_ratio : ℚ
  same_pool : Bool
  data : List FrameDatapoint
  in_context_data : List FrameDatapoint
  structured_verb_buckets : String → Finset ℕ
  structured_noun_buckets : String → Finset ℕ

/-- `FrameInterleavedDataset.__init__`: `in_context` is `none` when
`in_context_example_narrated_actions_dir` is `None`, in which case the
in-context dataset is the main dataset itself and self-exclusion applies. -/
def mkInterleavedDataset (data : List FrameDatapoint)
    (in_context : Option (List FrameDatapoint)) (K : ℕ) (ratio : ℚ) :
    InterleavedDataset :=
  { num_in_context_examples_per_sample := K
    verb_noun_ratio := ratio
    same_pool := in_context.isNone
    data := data
    in_context_data := in_context.getD data
    structured_verb_buckets := (build_buckets (in_context.getD data)).1
    structured_noun_buckets := (build_buckets (in_context.getD data)).2 }

/-- `FrameInterleavedDataset.__getitem__`, restricted to the index
selection it performs (the full return value additionally carries decoded
video tensors, irrelevant to the claims): read the target datapoint, select
the in-context example indices, and return them together with the dataset
object state after the call. The object state is returned unchanged because
the source only reads the canonical bucket maps (through
`.get(label, set())`) and mutates the per-call copies `verb_bucket`,
`noun_bucket`, `examples` and `rest` (`bucket -= samples` inside `_sample`
acts on the copy handed to it). `none` models the `IndexError` of an
out-of-range target index, which is raised before anything else happens. -/
def interleaved_getitem (pick : Finset ℕ → ℕ → Finset ℕ)
    (ds : InterleavedDataset) (index : ℕ) :
    Option (Finset ℕ) × InterleavedDataset :=
  match ds.data[index]? with
  | none => (none, ds)
  | some dp =>
    (some (select_in_context pick ds.structured_verb_buckets
      ds.structured_noun_buckets dp ds.same_pool index
      ds.in_context_data.length ds.num_in_context_examples_per_sample
      ds.verb_noun_ratio), ds)

/-- Bucket maps built by the constructor only hold indices of the rows they
were built from. -/
lemma build_buckets_subset_range (data : List FrameDatapoint) (L : String) :
    (build_buckets data).1 L ⊆ Finset.range data.length ∧
    (build_buckets data).2 L ⊆ Finset.range data.length := by
  constructor <;> intro i hmem <;>
    obtain ⟨hv, hn⟩ := mem_build_buckets_from data 0 (fun _ => ∅) (fun _ => ∅) L i
  · rw [build_buckets] at hmem
    rw [hv] at hmem
    simp only [Finset.not_mem_empty, false_or, zero_add] at hmem
    obtain ⟨j, dpx, hj, rfl, -⟩ := hmem
    rw [Finset.mem_range]
    obtain ⟨hlt, -⟩ := List.getElem?_eq_some.mp hj
    exact hlt
  · rw [build_buckets] at hmem
    rw [hn] at hmem
    simp only [Finset.not_mem_empty, false_or, zero_add] at hmem
    obtain ⟨j, dpx, hj, rfl, -⟩ := hmem
    rw [Finset.mem_range]
    obtain ⟨hlt, -⟩ := List.getElem?_eq_some.mp hj
    exact hlt

/-- C1: for every valid index access of the interleaved frame dataset built
over the same pool (no separate in-context directory), the selected set of
in-context example indices avoids the target's own index and has exactly
`min K (pool_size - 1)` elements, where `K` is
`num_in_context_examples_per_sample` and the pool is the dataset itself; in
particular `K = 0` yields the empty set. Quantified over every sampling
oracle satisfying the `random.sample` contract and every
`verb_noun_ratio` in `[0, 1]` (the spec defines it as the fraction of the
draw assigned to verbs). -/
theorem in_context_selection_spec (pick : Finset ℕ → ℕ → Finset ℕ)
    (data : List FrameDatapoint) (K : ℕ) (ratio : ℚ) (index : ℕ)
    (hp : SampleOracle pick) (hr0 : 0 ≤ ratio) (hr1 : ratio ≤ 1)
    (hi : index < data.length) :
    ∃ sel : Finset ℕ,
      (interleaved_getitem pick (mkInterleavedDataset data none K ratio)
        index).1 = some sel ∧
      index ∉ sel ∧ sel.card = min K (data.length - 1) := by
  have hdx : data[index]? = some data[index] := List.getElem?_eq_getElem hi
  unfold interleaved_getitem mkInterleavedDataset
  dsimp only
  rw [hdx]
  refine ⟨_, rfl, ?_⟩
  exact select_in_context_spec pick hp _ _ data[index] index data.length K ratio
    hr0 hr1 hi (fun L => (build_buckets_subset_range data L).1)
    (fun L => (build_buckets_subset_range data L).2)

/-- A concrete sampling oracle for the witness: take the `k` smallest
elements. -/
def pick_first (s : Finset ℕ) (k : ℕ) : Finset ℕ :=
  ((s.sort (· ≤ ·)).take k).toFinset

lemma pick_first_oracle : SampleOracle pick_first := by
  intro s k hk
  constructor
  · intro x hx
    rw [pick_first, List.mem_toFinset] at hx
    exact (Finset.mem_sort _).mp (List.mem_of_mem_take hx)
  · rw [pick_first]
    rw [List.toFinset_card_of_nodup
      ((Finset.sort_nodup _ s).sublist (List.take_sublist _ _))]
    rw [List.length_take, Finset.length_sort]
    omega

def dataW : List FrameDatapoint :=
  [⟨"take", "apple"⟩, ⟨"take", "apple"⟩, ⟨"put", "knife"⟩]

theorem in_context_selection_spec_witness :
    ∃ sel : Finset ℕ,
      (interleaved_getitem pick_first
        (mkInterleavedDataset dataW none 1 (1 / 2)) 0).1 = some sel ∧
      0 ∉ sel ∧ sel.card = min 1 (dataW.length - 1) :=
  in_context_selection_spec pick_first dataW 1 (1 / 2) 0 pick_first_oracle
    (by norm_num) (by norm_num) (by decide)

/-- C9: an index access never mutates the canonical bucket maps — the
dataset object state returned by `__getitem__` carries the very same
`structured_verb_buckets` and `structured_noun_buckets` it started with
(the draw-and-remove loop operates only on the per-call bucket copies). -/
theorem getitem_preserves_canonical_buckets (pick : Finset ℕ → ℕ → Finset ℕ)
    (ds : InterleavedDataset) (index : ℕ) :
    ((interleaved_getitem pick ds index).2).structured_verb_buckets =
        ds.structured_verb_buckets ∧
      ((interleaved_getitem pick ds index).2).structured_noun_buckets =
        ds.structured_noun_buckets := by
  unfold interleaved_getitem
  cases ds.data[index]? <;> exact ⟨rfl, rfl⟩

end EILEV
